import Mathlib

/-!
# Verification of the storage-engine core (buffer pool, LRU-K replacer,
# page guards, disk-resident extendible hash index)

Shallow embedding of the C++ sources:

* `src/storage/page/extendible_htable_header_page.cpp`
* `src/storage/page/extendible_htable_directory_page.cpp`
* `src/container/disk/hash/disk_extendible_hash_table.cpp`
* `src/buffer/lru_k_replacer.cpp`
* `src/buffer/buffer_pool_manager.cpp`
* `src/storage/page/page_guard.cpp`

Modelling conventions:

* The embedding models the release (`NDEBUG`) build: `BUSTUB_ASSERT` is
  compiled out, so the operational functions do not abort on assertion
  failure.  The assertion predicates themselves are embedded separately
  (`headerInitAssertHolds`, `headerDirIdxAssertHolds`) so that statements
  about which inputs the assertions accept can be made.
* C++ unsigned arithmetic is modelled over `Nat` with explicit wraparound
  where it can actually occur in the functions embedded here: the `uint8_t`
  local-depth cells wrap modulo 256; hash values are 32-bit quantities and
  all masks stay below `2^32` for the depths the structures admit.
* Genuine undefined behaviour (null-pointer dereference, dereferencing an
  `end()` iterator of a `std::set`) is modelled as `Except.error`; a result
  `Except.ok` means the C++ executed a defined path.
* The extendible hash table's page traffic goes through the buffer pool's
  guard methods.  Those methods are embedded separately (and shown, in the
  theorem for their own claim, to hand out null pages); for the index-level
  functions the page store is modelled as a map `page_id -> page content`
  that faithfully delivers each page, i.e. the index logic is verified
  against the storage service it asks for.  Every in-place mutation a C++
  pointer performs on a pool page is written through to the store at the
  point where it happens.
* `ExtendibleHTableBucketPage` is a collaborator whose implementation is
  not part of this repository's sources; its operations are modelled from
  the spec (see the doc comments on `Bucket`).
-/

namespace ExtHash

abbrev PageId := Int

def INVALID_PAGE_ID : PageId := -1

/-- Configuration constant from the collaborator header `common/config.h`
(not part of this repository's sources); the concrete value does not matter
for any statement below. -/
def HTABLE_HEADER_MAX_DEPTH : Nat := 9

/-- The condition asserted by `ExtendibleHTableHeaderPage::Init`
(extendible_htable_header_page.cpp line 20):
`BUSTUB_ASSERT(max_depth > HTABLE_HEADER_MAX_DEPTH, "Invalid max_depth")`.
The assertion aborts exactly when this proposition is false. -/
def headerInitAssertHolds (maxDepth : Nat) : Prop :=
  maxDepth > HTABLE_HEADER_MAX_DEPTH

instance (d : Nat) : Decidable (headerInitAssertHolds d) := by
  unfold headerInitAssertHolds; infer_instance

/-- The condition asserted by `ExtendibleHTableHeaderPage::GetDirectoryPageId`
(line 34) and `SetDirectoryPageId` (line 40):
`BUSTUB_ASSERT(directory_idx > (1 << max_depth_), "Invalid directory_idx")`. -/
def headerDirIdxAssertHolds (maxDepth idx : Nat) : Prop :=
  idx > 1 <<< maxDepth

instance (md i : Nat) : Decidable (headerDirIdxAssertHolds md i) := by
  unfold headerDirIdxAssertHolds; infer_instance

/-- Embeds `ExtendibleHTableHeaderPage::HashToDirectoryIndex` (lines 29-31):
`return hash & (1 << max_depth_ -1);` — by C++ operator precedence this is
`hash & (1 << (max_depth_ - 1))`, a single-bit mask. -/
def headerHashToDirectoryIndex (maxDepth hash : Nat) : Nat :=
  hash &&& (1 <<< (maxDepth - 1))

/-- Modelled from the spec: the intended directory-slot computation
`top_bits(h, Mhd)` — the value of the most significant `max_depth` bits of
the 32-bit hash, an index in `[0, 2^max_depth)`. -/
def specTopBits (maxDepth hash : Nat) : Nat :=
  hash >>> (32 - maxDepth)

/-! ## Bucket pages

Modelled from the spec: `ExtendibleHTableBucketPage` is declared and used by
the sources of this repository but its implementation is not under `src/`.
Per the spec (§3): "*Bucket page*: capacity `bucket_max_size`, current size,
array of (key, value) pairs"; (§4.5.1) duplicate policy "unique keys —
duplicate insert returns false from the bucket's insert".  `RemoveAt i`
removes the entry at index `i` (the array is kept compact, later entries
shift left); `Remove key` removes the first entry matching `key`.
Keys and values are embedded at the `<int, int, IntComparator>`
instantiation the source explicitly instantiates (`cmp_(a,b) == 0` iff
`a = b`). -/

structure Bucket where
  maxSize : Nat
  entries : List (Int × Int)
deriving DecidableEq, Repr

def Bucket.bktInit (maxSize : Nat) : Bucket := ⟨maxSize, []⟩

def Bucket.size (b : Bucket) : Nat := b.entries.length

def Bucket.isFull (b : Bucket) : Bool := b.size == b.maxSize

def Bucket.isEmpty (b : Bucket) : Bool := b.size == 0

def Bucket.entryAt (b : Bucket) (i : Nat) : Int × Int := b.entries.getD i (0, 0)

def Bucket.insertKV (b : Bucket) (k v : Int) : Bool × Bucket :=
  if b.isFull || b.entries.any (fun e => e.1 == k) then (false, b)
  else (true, { b with entries := b.entries ++ [(k, v)] })

def Bucket.removeAt (b : Bucket) (i : Nat) : Bucket :=
  { b with entries := b.entries.eraseIdx i }

def Bucket.removeKey (b : Bucket) (k : Int) : Bool × Bucket :=
  if b.entries.any (fun e => e.1 == k) then
    (true, { b with entries := b.entries.eraseP (fun e => e.1 == k) })
  else (false, b)

/-! ## Directory pages — `extendible_htable_directory_page.cpp`

The two fixed `HTABLE_DIRECTORY_ARRAY_SIZE` arrays are modelled as total
functions; `Init` writes every cell, matching its loop over the whole
array.  `local_depths_` cells are `uint8_t`: increment and decrement wrap
modulo 256. -/

structure Directory where
  maxDepth : Nat
  globalDepth : Nat
  localDepths : Nat → Nat
  bucketPageIds : Nat → PageId

def Directory.dirInit (maxDepth : Nat) : Directory :=
  ⟨maxDepth, 0, fun _ => 0, fun _ => INVALID_PAGE_ID⟩

/-- Embeds `Size()`: `return 1 << global_depth_;` -/
def Directory.size (d : Directory) : Nat := 1 <<< d.globalDepth

/-- Embeds `HashToBucketIndex`: `return hash & ((1 << global_depth_) - 1);` -/
def Directory.hashToBucketIndex (d : Directory) (hash : Nat) : Nat :=
  hash &&& ((1 <<< d.globalDepth) - 1)

def Directory.getBucketPageId (d : Directory) (i : Nat) : PageId :=
  d.bucketPageIds i

def Directory.setBucketPageId (d : Directory) (i : Nat) (p : PageId) : Directory :=
  { d with bucketPageIds := Function.update d.bucketPageIds i p }

def Directory.getLocalDepth (d : Directory) (i : Nat) : Nat := d.localDepths i

def Directory.setLocalDepth (d : Directory) (i v : Nat) : Directory :=
  { d with localDepths := Function.update d.localDepths i v }

/-- Embeds `GetSplitIndex`: `return bucket_idx | (1 << GetLocalDepth(bucket_idx));` -/
def Directory.getSplitIndex (d : Directory) (i : Nat) : Nat :=
  i ||| (1 <<< d.getLocalDepth i)

/-- Embeds `IncrLocalDepth`: `local_depths_[bucket_idx]++;` on a `uint8_t` cell. -/
def Directory.incrLocalDepth (d : Directory) (i : Nat) : Directory :=
  { d with localDepths := Function.update d.localDepths i ((d.localDepths i + 1) % 256) }

/-- Embeds `DecrLocalDepth`: `local_depths_[bucket_idx]--;` on a `uint8_t` cell
(wraps to 255 from 0 in the release build; the debug assertion is embedded
separately). -/
def Directory.decrLocalDepth (d : Directory) (i : Nat) : Directory :=
  { d with localDepths := Function.update d.localDepths i ((d.localDepths i + 255) % 256) }

/-- Embeds `IncrGlobalDepth` (lines 77-90): increments `global_depth_` and copies
`bucket_page_ids_[i] = bucket_page_ids_[i % val]`,
`local_depths_[i] = local_depths_[i % val]` for `i ∈ [val, 1 << G')` with
`val = 1 << (G' - 1)`.  Since `i % val < val ≤ i`, the loop reads only cells
it never writes, so the simultaneous functional update is equivalent. -/
def Directory.incrGlobalDepth (d : Directory) : Directory :=
  let g' := d.globalDepth + 1
  let val := 1 <<< (g' - 1)
  { d with
    globalDepth := g',
    bucketPageIds := fun i =>
      if val ≤ i ∧ i < 1 <<< g' then d.bucketPageIds (i % val) else d.bucketPageIds i,
    localDepths := fun i =>
      if val ≤ i ∧ i < 1 <<< g' then d.localDepths (i % val) else d.localDepths i }

/-- Embeds `DecrGlobalDepth`: `global_depth_--;`.  Every call site in the sources
guards `global_depth_ ≥ 1`, where `Nat` subtraction coincides with the
`uint32_t` decrement. -/
def Directory.decrGlobalDepth (d : Directory) : Directory :=
  { d with globalDepth := d.globalDepth - 1 }

/-- Embeds `CanShrink` (lines 98-105): false iff some slot `i < Size()` has
`local_depths_[i] == global_depth_`. -/
def Directory.canShrink (d : Directory) : Bool :=
  (List.range d.size).all fun i => d.localDepths i != d.globalDepth

/-! ## The disk extendible hash table — `disk_extendible_hash_table.cpp`

State of the `<int, int, IntComparator>` instantiation: the header page
(array of directory page ids, all `INVALID` after `Init`), a page store
`page_id -> content` standing for the buffer pool's pages, and the
monotonically increasing next page id.  The comparator compares ints for
equality; the injected hash function is a state field. -/

inductive PageC where
  | dir : Directory → PageC
  | bkt : Bucket → PageC

structure HT where
  headerMaxDepth : Nat
  directoryMaxDepth : Nat
  bucketMaxSize : Nat
  hashFn : Int → Nat
  header : Nat → PageId
  store : PageId → Option PageC
  nextPageId : PageId

/-- Constructor (lines 33-50): creates the header page (page id 0) and
`Init`s it, which sets every directory page id to `INVALID_PAGE_ID`. -/
def HT.mkHT (headerMaxDepth directoryMaxDepth bucketMaxSize : Nat)
    (hashFn : Int → Nat) : HT :=
  { headerMaxDepth := headerMaxDepth
    directoryMaxDepth := directoryMaxDepth
    bucketMaxSize := bucketMaxSize
    hashFn := hashFn
    header := fun _ => INVALID_PAGE_ID
    store := fun _ => none
    nextPageId := 1 }

/-- Page allocation through the pool: returns the next page id and stores
the freshly initialised content there. -/
def HT.newPage (t : HT) (c : PageC) : PageId × HT :=
  (t.nextPageId,
   { t with store := Function.update t.store t.nextPageId (some c),
            nextPageId := t.nextPageId + 1 })

def HT.writePage (t : HT) (pid : PageId) (c : PageC) : HT :=
  { t with store := Function.update t.store pid (some c) }

def HT.getDir (t : HT) (pid : PageId) : Except String Directory :=
  match t.store pid with
  | some (.dir d) => .ok d
  | _ => .error "page fault: no directory page at this page id"

def HT.getBkt (t : HT) (pid : PageId) : Except String Bucket :=
  match t.store pid with
  | some (.bkt b) => .ok b
  | _ => .error "page fault: no bucket page at this page id"

/-- In-place mutation of a directory page through its `AsMut` pointer,
written through to the store at the point where it happens. -/
def HT.mutDir (t : HT) (pid : PageId) (f : Directory → Directory) :
    Except String HT := do
  let d ← t.getDir pid
  .ok (t.writePage pid (.dir (f d)))

/-- Embeds `GetValue` (lines 56-96): header slot → directory → bucket, then a
linear scan of the bucket appending every value whose key matches into the
(initially empty) result vector; returns the vector and the boolean
`result->size() != 0`. -/
def HT.getValue (t : HT) (key : Int) : Except String (List Int × Bool) := do
  let hash := t.hashFn key
  let dpid := t.header (headerHashToDirectoryIndex t.headerMaxDepth hash)
  if dpid = INVALID_PAGE_ID then .ok ([], false)
  else do
    let d ← t.getDir dpid
    let b ← t.getBkt (d.getBucketPageId (d.hashToBucketIndex hash))
    let res := (b.entries.filter (fun e => e.1 == key)).map (fun e => e.2)
    .ok (res, res.length != 0)

/-- The redistribution loop of `Insert` (lines 171-180):
`for (i = 0; i < bucket->Size(); ++i)` re-reads the shrinking bucket's size
each iteration; on a move it inserts into the new bucket and calls
`RemoveAt(i)` before `++i`.  The directory is only read inside the loop.
`i` increases every iteration and the size never grows, so the iteration
count is bounded by the initial size; the structural fuel is called with
`size + 1` and its exhaustion branch is unreachable. -/
def redistLoop (hashFn : Int → Nat) (d : Directory) (nbidx : Nat) :
    Nat → Nat → Bucket → Bucket → Except String (Bucket × Bucket)
  | 0, _, _, _ => .error "unreachable: redistribution fuel exhausted"
  | fuel+1, i, b, nb =>
    if i < b.size then
      let kv := b.entryAt i
      if d.hashToBucketIndex (hashFn kv.1) = nbidx then
        redistLoop hashFn d nbidx fuel (i+1) (b.removeAt i) (nb.insertKV kv.1 kv.2).2
      else
        redistLoop hashFn d nbidx fuel (i+1) b nb
    else .ok (b, nb)

/-- Split tail of `Insert` (lines 164-186): allocate the new bucket page,
install it at the split slot, redistribute, then insert the new key into
whichever of the two buckets its hash now selects (the bucket's own insert
result is discarded by the source). -/
def HT.insertSplitRest (t : HT) (dpid bpid : PageId) (nbidx hash : Nat)
    (key value : Int) : Except String (Bool × HT) := do
  let (npid, t) := t.newPage (.bkt (Bucket.bktInit t.bucketMaxSize))
  let t ← t.mutDir dpid (fun d => d.setBucketPageId nbidx npid)
  let d ← t.getDir dpid
  let b ← t.getBkt bpid
  let nb ← t.getBkt npid
  let (b, nb) ← redistLoop t.hashFn d nbidx (b.size + 1) 0 b nb
  let t := (t.writePage bpid (.bkt b)).writePage npid (.bkt nb)
  if d.hashToBucketIndex hash = nbidx then
    .ok (true, t.writePage npid (.bkt (nb.insertKV key value).2))
  else
    .ok (true, t.writePage bpid (.bkt (b.insertKV key value).2))

/-- Embeds `Insert` (lines 102-197).  The function is syntactically recursive
(line 190) but the recursive call sits under `if (bucket->IsFull())` inside
the `else` branch of the very same test on the unmodified bucket, so it can
never run; the structural fuel makes this explicit (see
`insertFuel_fuel_irrelevant`). -/
def HT.insertFuel : Nat → HT → Int → Int → Except String (Bool × HT)
  | 0, _, _, _ => .error "unreachable: recursion fuel exhausted"
  | fuel+1, t, key, value => do
    let hash := t.hashFn key
    let dirIdx := headerHashToDirectoryIndex t.headerMaxDepth hash
    -- fetch or create the directory page (lines 112-125)
    let (dpid, t) :=
      if t.header dirIdx ≠ INVALID_PAGE_ID then (t.header dirIdx, t)
      else
        let (p, t') := t.newPage (.dir (Directory.dirInit t.directoryMaxDepth))
        (p, { t' with header := Function.update t'.header dirIdx p })
    let d0 ← t.getDir dpid
    let bidx := d0.hashToBucketIndex hash
    -- fetch or create the bucket page (lines 127-142)
    let (bpid, t) ←
      if d0.getBucketPageId bidx = INVALID_PAGE_ID then do
        let (p, t') := t.newPage (.bkt (Bucket.bktInit t.bucketMaxSize))
        let t' ← t'.mutDir dpid (fun d => d.setBucketPageId bidx p)
        Except.ok (p, t')
      else Except.ok (d0.getBucketPageId bidx, t)
    let b ← t.getBkt bpid
    if b.isFull then do
      -- split (lines 144-169)
      let d1 ← t.getDir dpid
      let nbidx := d1.getSplitIndex bidx
      if nbidx < d1.size then do
        let t ← t.mutDir dpid (fun d => (d.incrLocalDepth bidx).incrLocalDepth nbidx)
        t.insertSplitRest dpid bpid nbidx hash key value
      else
        if d1.globalDepth = d1.maxDepth then .ok (false, t)
        else do
          let t ← t.mutDir dpid (fun d => (d.incrLocalDepth bidx).incrGlobalDepth)
          t.insertSplitRest dpid bpid nbidx hash key value
    else
      -- lines 187-194: the bucket was just found not full, yet the source
      -- re-tests `bucket->IsFull()` and only recurses in that (dead) case
      if b.isFull then HT.insertFuel fuel t key value
      else .ok (true, t.writePage bpid (.bkt (b.insertKV key value).2))

def HT.insertOp (t : HT) (key value : Int) : Except String (Bool × HT) :=
  HT.insertFuel 1 t key value

/-- The scan-and-delete loop of `Remove` (lines 250-257): on a match it
sets `found`, calls the bucket's `Remove(key)` (first matching entry) and
decrements `i`, which the `++i` immediately undoes.  Matches shrink the
bucket and non-matches advance `i`, so iterations are bounded by twice the
initial size; the fuel-exhaustion branch is unreachable at the call site's
fuel. -/
def removeLoop (key : Int) :
    Nat → Nat → Bool → Bucket → Except String (Bool × Bucket)
  | 0, _, _, _ => .error "unreachable: remove loop fuel exhausted"
  | fuel+1, i, found, b =>
    if i < b.size then
      if (b.entryAt i).1 == key then
        removeLoop key fuel i true (b.removeKey key).2
      else
        removeLoop key fuel (i+1) found b
    else .ok (found, b)

/-- Embeds `Remove` (lines 221-283): navigate as in lookup, delete all matching
entries, and if the bucket became empty run the merge block (lines
264-280): for `G > 1` repoint slot `bucket_idx` to the page of slot
`bucket_idx % (1 << (G-1))`, decrement the local depth of both slots and
shrink if possible; for `G == 1` decrement the global depth and zero slot
0's local depth. -/
def HT.removeOp (t : HT) (key : Int) : Except String (Bool × HT) := do
  let hash := t.hashFn key
  let dpid := t.header (headerHashToDirectoryIndex t.headerMaxDepth hash)
  if dpid = INVALID_PAGE_ID then .ok (false, t)
  else do
    let d ← t.getDir dpid
    let bidx := d.hashToBucketIndex hash
    let bpid := d.getBucketPageId bidx
    let b0 ← t.getBkt bpid
    let (found, b) ← removeLoop key (2 * b0.size + 1) 0 false b0
    let t := t.writePage bpid (.bkt b)
    if !found then .ok (false, t)
    else if b.isEmpty then
      if 1 < d.globalDepth then
        let val := 1 <<< (d.globalDepth - 1)
        let d := d.setBucketPageId bidx (d.getBucketPageId (bidx % val))
        let d := d.decrLocalDepth bidx
        let d := d.decrLocalDepth (bidx % val)
        let d := if d.canShrink then d.decrGlobalDepth else d
        .ok (true, t.writePage dpid (.dir d))
      else if d.globalDepth = 1 then
        let d := (d.decrGlobalDepth).setLocalDepth 0 0
        .ok (true, t.writePage dpid (.dir d))
      else .ok (true, t)
    else .ok (true, t)

/-! Concrete scenarios used to settle the claims about `Insert`, `GetValue`
and `Remove`.  The injected hash function is the identity on non-negative
int keys. -/

def idHash : Int → Nat := fun k => k.toNat

/-- Table with `header_max_depth = 2`, `directory_max_depth = 3`,
`bucket_max_size = 2`. -/
def tblA : HT := HT.mkHT 2 3 2 idHash

/-- Insert keys hashing to 0, 4, 8 (all land in header slot 0 and, while
`G ∈ {0,1}`, in bucket index 0). -/
def runA : Except String (Bool × HT) := do
  let (_, t) ← tblA.insertOp 0 100
  let (_, t) ← t.insertOp 4 101
  t.insertOp 8 102

/-- Result of the third insert of `runA` together with the subsequent
lookup of its key. -/
def runAProbe : Except String (Bool × List Int × Bool) := do
  let (r, t) ← runA
  let (vals, found) ← t.getValue 8
  .ok (r, vals, found)

/-- Result of the third insert of `runA` together with the directory's
global depth and the two buckets' contents afterwards (directory page id 1,
original bucket page id 2, split bucket page id 3). -/
def runASplitProbe : Except String (Bool × Nat × List (Int × Int) × List (Int × Int)) := do
  let (r, t) ← runA
  let d ← t.getDir 1
  let b ← t.getBkt 2
  let nb ← t.getBkt 3
  .ok (r, d.globalDepth, b.entries, nb.entries)

/-- Table with `header_max_depth = 3`, `directory_max_depth = 3`,
`bucket_max_size = 2`. -/
def tblB : HT := HT.mkHT 3 3 2 idHash

/-- Insert keys hashing to 0, 1, 2, 8 (all in header slot 0), producing
global depth 2 with local depths `[2, 1, 2, 1]`, then remove the key of the
bucket at slot 1. -/
def runB : Except String (Bool × HT) := do
  let (_, t) ← tblB.insertOp 0 10
  let (_, t) ← t.insertOp 1 11
  let (_, t) ← t.insertOp 2 12
  let (_, t) ← t.insertOp 8 13
  t.removeOp 1

/-- Result of the remove of `runB` together with the directory state it
leaves behind (global depth, local depths of slots 0 and 1). -/
def runBProbe : Except String (Bool × Nat × Nat × Nat) := do
  let (r, t) ← runB
  let d ← t.getDir 1
  .ok (r, d.globalDepth, d.localDepths 0, d.localDepths 1)

end ExtHash

/-! ## LRU-K replacer — `lru_k_replacer.cpp`

`node_store_` (a `std::map<frame_id_t, LRUKNode*>`) is an association
list; `replacer_` and `inf_replacer_` (`std::set<frame_id_t>`) are kept as
ascending duplicate-free lists, matching the iteration order of the C++
sets.  `LRUKNode` keeps `history_` (oldest first: `push_back` appends,
`pop_front` drops the head) and the evictable flag; `cur_size_` always
equals `history_.size()` so it is not modelled separately.  The
`is_evictable_` field initialiser is in the collaborator header (not under
`src/`); modelled from the spec's per-frame state machine
`Untracked → Tracked(not evictable)`, a new node starts not evictable.

The steady clock feeding `AddAcceesTime` is a state counter that ticks on
every access: a strictly increasing sequence of timestamps, a refinement of
the non-decreasing microsecond clock the spec describes.

Undefined behaviour is surfaced as `Except.error`:
`node_store_[fid]` on an absent key deref-erences the default-inserted null
pointer, and `find` followed by unconditional `erase`/`*` on an absent set
element dereferences the `end()` iterator. -/

namespace LRUK

structure Node where
  history : List Nat
  evictable : Bool
deriving DecidableEq, Repr

/-- Embeds `GetLatestAccessTime` (lines 59-64): 0 for an empty history, else
`history_.front()` — the oldest kept timestamp. -/
def Node.getLatestAccessTime (n : Node) : Nat := n.history.headD 0

/-- Embeds `AddAcceesTime` (lines 25-48): `push_back(now)`, then keep growing
while fewer than `k` entries were kept, else `pop_front()`. -/
def Node.addAccess (k : Nat) (n : Node) (now : Nat) : Node :=
  if n.history.length < k then { n with history := n.history ++ [now] }
  else { n with history := (n.history ++ [now]).tail }

structure Replacer where
  k : Nat
  numFrames : Nat
  nodeStore : List (Nat × Node)
  replacerSet : List Nat
  infSet : List Nat
  currSize : Nat
  clock : Nat
deriving DecidableEq, Repr

/-- Models `std::map` insert-or-assign through `operator[]`/pointer mutation. -/
def storeUpdate (s : List (Nat × Node)) (fid : Nat) (n : Node) : List (Nat × Node) :=
  match s with
  | [] => [(fid, n)]
  | e :: rest => if e.1 = fid then (fid, n) :: rest else e :: storeUpdate rest fid n

/-- Models `std::set::insert`, keeping the ascending order. -/
def setInsert (a : Nat) : List Nat → List Nat
  | [] => [a]
  | b :: rest => if a < b then a :: b :: rest
                 else if a = b then b :: rest
                 else b :: setInsert a rest

def UINT64_MAX : Nat := 2 ^ 64 - 1

/-- One step of the victim scan in `Evict` (lines 98-106 and 108-116): keep
the first frame whose `GetLatestAccessTime()` is strictly below the best so
far; `node_store_[fid]` on an unknown frame is a null dereference. -/
def scanStep (store : List (Nat × Node)) (acc : Nat × Option (Nat × Node))
    (fid : Nat) : Except String (Nat × Option (Nat × Node)) :=
  match store.lookup fid with
  | none => .error "Evict: null LRUKNode dereference"
  | some n =>
    if n.getLatestAccessTime < acc.1 then .ok (n.getLatestAccessTime, some (fid, n))
    else .ok acc

/-- Embeds `Evict` (lines 85-134). -/
def Replacer.evict (r : Replacer) : Except String (Option Nat × Replacer) :=
  if r.currSize = 0 then .ok (none, r)
  else do
    let fids := if r.infSet.length > 0 then r.infSet else r.replacerSet
    let (_, best) ← fids.foldlM (scanStep r.nodeStore) (UINT64_MAX, none)
    match best with
    | none => .error "Evict: remnode is a null pointer"
    | some (curframe, remnode) => do
      let r ←
        if remnode.history.length < r.k then
          if curframe ∈ r.infSet then
            Except.ok { r with infSet := r.infSet.erase curframe }
          else .error "Evict: erase on end iterator of inf_replacer_"
        else Except.ok r
      let r ←
        if curframe ∈ r.replacerSet then
          Except.ok { r with replacerSet := r.replacerSet.erase curframe }
        else .error "Evict: erase on end iterator of replacer_"
      .ok (some curframe,
           { r with currSize := r.currSize - 1,
                    nodeStore := storeUpdate r.nodeStore curframe ⟨[], false⟩ })

/-- Embeds `RecordAccess` (lines 136-157). -/
def Replacer.recordAccess (r : Replacer) (fid : Nat) : Except String Replacer :=
  match r.nodeStore.lookup fid with
  | some n => do
    let r ←
      if n.evictable = true ∧ n.history.length = r.k - 1 then
        if fid ∈ r.infSet then Except.ok { r with infSet := r.infSet.erase fid }
        else .error "RecordAccess: erase on end iterator of inf_replacer_"
      else Except.ok r
    .ok { r with nodeStore := storeUpdate r.nodeStore fid (n.addAccess r.k r.clock),
                 clock := r.clock + 1 }
  | none =>
    .ok { r with
          nodeStore := storeUpdate r.nodeStore fid
            (Node.addAccess r.k ⟨[], false⟩ r.clock),
          clock := r.clock + 1 }

/-- Embeds `SetEvictable` (lines 159-204); the two `BUSTUB_ASSERT(true, ...)`
calls never fire even in a debug build. -/
def Replacer.setEvictable (r : Replacer) (fid : Nat) (flag : Bool) :
    Except String Replacer :=
  if flag then
    if fid ∈ r.replacerSet then .ok r
    else
      match r.nodeStore.lookup fid with
      | none => .error "SetEvictable: null LRUKNode dereference"
      | some n =>
        let r := { r with replacerSet := setInsert fid r.replacerSet }
        let r := if n.history.length < r.k
                 then { r with infSet := setInsert fid r.infSet } else r
        .ok { r with nodeStore := storeUpdate r.nodeStore fid { n with evictable := true },
                     currSize := r.currSize + 1 }
  else
    if fid ∈ r.replacerSet then
      match r.nodeStore.lookup fid with
      | none => .error "SetEvictable: null LRUKNode dereference"
      | some n => do
        let r := { r with replacerSet := r.replacerSet.erase fid }
        let r ←
          if n.history.length < r.k then
            if fid ∈ r.infSet then Except.ok { r with infSet := r.infSet.erase fid }
            else .error "SetEvictable: erase on end iterator of inf_replacer_"
          else Except.ok r
        .ok { r with nodeStore := storeUpdate r.nodeStore fid { n with evictable := false },
                     currSize := r.currSize - 1 }
    else .ok r

/-- Embeds `Remove` (lines 206-228).  After erasing from `replacer_` the source
does `index = inf_replacer_.find(frame_id); if (*index > 0)
inf_replacer_.erase(index);`: when the frame is not in `inf_replacer_` this
dereferences the `end()` iterator (undefined behaviour); when it is, frame
id 0 is never erased. -/
def Replacer.removeFrame (r : Replacer) (fid : Nat) : Except String Replacer :=
  if fid ∈ r.replacerSet then
    match r.nodeStore.lookup fid with
    | none => .error "Remove: null LRUKNode dereference"
    | some _n =>
      let r := { r with currSize := r.currSize - 1,
                        replacerSet := r.replacerSet.erase fid }
      if fid ∈ r.infSet then
        let r := if fid > 0 then { r with infSet := r.infSet.erase fid } else r
        .ok { r with nodeStore := storeUpdate r.nodeStore fid ⟨[], false⟩ }
      else .error "Remove: dereference of end iterator of inf_replacer_"
  else .ok r

/-- The spec's LRU-K distance at time `now`: `now` minus the K-th most
recent access timestamp, or `⊤` when fewer than `k` accesses are recorded.
For a node with at least `k` accesses the history holds exactly the last
`k` timestamps, so its head is the K-th most recent access. -/
def kdistance (k now : Nat) (n : Node) : WithTop Nat :=
  if n.history.length < k then ⊤ else (↑(now - n.getLatestAccessTime) : WithTop Nat)

/-- Well-formedness of the replacer bookkeeping, as maintained by the
operations above: `curr_size_` counts `replacer_`; every frame in
`replacer_` has a live node that is flagged evictable and has at least one
recorded access; and `inf_replacer_` holds exactly the evictable frames
with fewer than `k` accesses. -/
def Replacer.wfb (r : Replacer) : Bool :=
  (r.currSize == r.replacerSet.length) &&
  (r.replacerSet.all fun f =>
    match r.nodeStore.lookup f with
    | some n => n.evictable && !n.history.isEmpty
    | none => false) &&
  (r.infSet.all fun f => r.replacerSet.contains f) &&
  (r.infSet.all fun f =>
    match r.nodeStore.lookup f with
    | some n => n.history.length < r.k
    | none => false) &&
  (r.replacerSet.all fun f =>
    match r.nodeStore.lookup f with
    | some n => if n.history.length < r.k then r.infSet.contains f else true
    | none => false)

end LRUK

/-! ## Buffer pool manager — `buffer_pool_manager.cpp` — and page guards —
`page_guard.cpp`

A frame holds the `Page` object's metadata and its data buffer (modelled as
a single abstract word; `ResetMemory` zeroes it).  The disk scheduler's
round trips are modelled synchronously — each `Schedule` + `future.get()`
pair becomes one entry in an operation log plus the corresponding transfer
between the frame buffer and the disk map — which is faithful because the
pool waits on every future before proceeding. -/

namespace BPM

structure Frame where
  pageId : Int
  pinCount : Int
  isDirty : Bool
  data : Nat
deriving DecidableEq, Repr

structure DiskOp where
  isWrite : Bool
  pageId : Int
deriving DecidableEq, Repr

structure Pool where
  poolSize : Nat
  frames : Nat → Frame
  pageTable : List (Int × Nat)
  freeList : List Nat
  replacer : LRUK.Replacer
  nextPageId : Int
  disk : Int → Nat
  ops : List DiskOp

/-- Models `std::unordered_map::erase` by key. -/
def ptErase (pt : List (Int × Nat)) (pid : Int) : List (Int × Nat) :=
  pt.filter fun e => e.1 ≠ pid

/-- Embeds `FetchPage` (lines 109-204).  Resident: record the access and return
the frame — the pin count is left untouched.  Otherwise take a free frame
(read from disk only when `page_id < next_page_id_`, then pin and record),
or evict: write back if dirty, retarget the frame, conditionally read, pin,
then issue one more unconditional read (lines 187-192), and record. -/
def Pool.fetchPage (m : Pool) (pid : Int) : Except String (Option Nat × Pool) :=
  match m.pageTable.lookup pid with
  | some f => do
    let rep ← m.replacer.recordAccess f
    .ok (some f, { m with replacer := rep })
  | none =>
    match m.freeList with
    | f :: rest => do
      let m := { m with freeList := rest, pageTable := (pid, f) :: m.pageTable }
      let m := { m with frames := Function.update m.frames f ({ m.frames f with pageId := pid }) }
      let m :=
        if pid < m.nextPageId then
          { m with frames := Function.update m.frames f ({ m.frames f with data := m.disk pid }),
                   ops := m.ops ++ [DiskOp.mk false pid] }
        else m
      let fr1 := { m.frames f with pinCount := (m.frames f).pinCount + 1 }
      let m := { m with frames := Function.update m.frames f fr1 }
      let rep ← m.replacer.recordAccess f
      .ok (some f, { m with replacer := rep })
    | [] => do
      let (vOpt, rep) ← m.replacer.evict
      let m := { m with replacer := rep }
      match vOpt with
      | none => .ok (none, m)
      | some v =>
        let m :=
          if (m.frames v).isDirty then
            { m with disk := Function.update m.disk (m.frames v).pageId (m.frames v).data,
                     ops := m.ops ++ [DiskOp.mk true (m.frames v).pageId] }
          else m
        let m := { m with pageTable := ptErase m.pageTable (m.frames v).pageId }
        let fr2 := { m.frames v with data := 0, isDirty := false, pinCount := 0 }
        let m := { m with frames := Function.update m.frames v fr2 }
        let m := { m with pageTable := (pid, v) :: m.pageTable }
        let m := { m with frames := Function.update m.frames v ({ m.frames v with pageId := pid }) }
        let m :=
          if pid < m.nextPageId then
            { m with frames := Function.update m.frames v ({ m.frames v with data := m.disk pid }),
                     ops := m.ops ++ [DiskOp.mk false pid] }
          else m
        let fr3 := { m.frames v with pinCount := (m.frames v).pinCount + 1 }
        let m := { m with frames := Function.update m.frames v fr3 }
        -- lines 187-192: "read this page from disk", unconditionally
        let m := { m with frames := Function.update m.frames v ({ m.frames v with data := m.disk pid }),
                          ops := m.ops ++ [DiskOp.mk false pid] }
        let rep ← m.replacer.recordAccess v
        .ok (some v, { m with replacer := rep })

/-- Embeds `UnpinPage` (lines 206-234). -/
def Pool.unpinPage (m : Pool) (pid : Int) (isDirty : Bool) :
    Except String (Bool × Pool) :=
  match m.pageTable.lookup pid with
  | none => .ok (false, m)
  | some f =>
    if (m.frames f).pinCount ≤ 0 then .ok (false, m)
    else do
      let fr1 := { m.frames f with pinCount := (m.frames f).pinCount - 1 }
      let m := { m with frames := Function.update m.frames f fr1 }
      let m ←
        if (m.frames f).pinCount = 0 then do
          let rep ← m.replacer.setEvictable f true
          Except.ok { m with replacer := rep }
        else Except.ok m
      let m :=
        if isDirty then
          { m with frames := Function.update m.frames f ({ m.frames f with isDirty := true }) }
        else m
      .ok (true, m)

/-- Embeds `DeletePage` (lines 275-304).  `DeallocatePage` is a no-op in the
collaborator disk manager.  `ResetMemory` zeroes the buffer; the stored
`page_id_` is not touched. -/
def Pool.deletePage (m : Pool) (pid : Int) : Except String (Bool × Pool) :=
  match m.pageTable.lookup pid with
  | none => .ok (true, m)
  | some f =>
    if 0 < (m.frames f).pinCount then .ok (false, m)
    else do
      let m := { m with pageTable := ptErase m.pageTable pid }
      let rep ← m.replacer.removeFrame f
      let m := { m with replacer := rep, freeList := m.freeList ++ [f] }
      let fr1 := { m.frames f with data := 0, isDirty := false, pinCount := 0 }
      let m := { m with frames := Function.update m.frames f fr1 }
      .ok (true, m)

/-! ### Page guards

`BasicPageGuard` holds `bpm_` (modelled by the flag whether it is
non-null), `page_` (the frame the `Page*` points at; `none` is `nullptr`)
and `is_dirty_` (default-initialised `false` in the collaborator header).
The `ReadPageGuard`/`WritePageGuard` constructors (page_guard.cpp lines
85-93 and 152-160) first execute `page->RLatch()` / `page->WLatch()`: on a
null page this dereferences a null pointer. -/

structure BasicPageGuard where
  bpmAttached : Bool
  page : Option Nat
  isDirty : Bool
deriving DecidableEq, Repr

structure ReadPageGuard where
  guard : BasicPageGuard
deriving DecidableEq, Repr

structure WritePageGuard where
  guard : BasicPageGuard
deriving DecidableEq, Repr

def mkReadPageGuard (m : Pool) (bpmAttached : Bool) (page : Option Nat) :
    Except String ReadPageGuard :=
  match page with
  | none => .error "null pointer dereference: page->RLatch()"
  | some f => .ok ⟨⟨bpmAttached, some f, (m.frames f).isDirty⟩⟩

def mkWritePageGuard (m : Pool) (bpmAttached : Bool) (page : Option Nat) :
    Except String WritePageGuard :=
  match page with
  | none => .error "null pointer dereference: page->WLatch()"
  | some f => .ok ⟨⟨bpmAttached, some f, (m.frames f).isDirty⟩⟩

/-- Embeds `FetchPageBasic` (line 308): `return {this, nullptr};`. -/
def Pool.fetchPageBasic (m : Pool) (_pid : Int) : BasicPageGuard × Pool :=
  (⟨true, none, false⟩, m)

/-- Embeds `FetchPageRead` (line 310): `return {this, nullptr};` — the
`ReadPageGuard` constructor immediately latches the null page. -/
def Pool.fetchPageRead (m : Pool) (_pid : Int) :
    Except String (ReadPageGuard × Pool) := do
  let g ← mkReadPageGuard m true none
  .ok (g, m)

/-- Embeds `FetchPageWrite` (line 312): `return {this, nullptr};`. -/
def Pool.fetchPageWrite (m : Pool) (_pid : Int) :
    Except String (WritePageGuard × Pool) := do
  let g ← mkWritePageGuard m true none
  .ok (g, m)

/-- Embeds `NewPageGuarded` (line 314): `return {this, nullptr};` — the out
parameter `page_id` is never written. -/
def Pool.newPageGuarded (m : Pool) : BasicPageGuard × Pool :=
  (⟨true, none, false⟩, m)

/-! ### Concrete pool states for the `FetchPage` and `DeletePage` claims -/

/-- One-frame pool, page 7 resident in frame 0 with pin count 1; its frame
is tracked by the replacer (k = 2, one access, not evictable). -/
def poolA : Pool :=
  { poolSize := 1
    frames := Function.update (fun _ => ⟨-1, 0, false, 0⟩) 0 ⟨7, 1, false, 0⟩
    pageTable := [(7, 0)]
    freeList := []
    replacer := ⟨2, 1, [(0, ⟨[2], false⟩)], [], [], 0, 9⟩
    nextPageId := 8
    disk := fun _ => 0
    ops := [] }

/-- One-frame pool, page 5 resident in frame 0 with pin count 0 and
evictable (k = 2, one access); `next_page_id_` is 6, so page id 10 has
never been persisted. -/
def poolB : Pool :=
  { poolSize := 1
    frames := Function.update (fun _ => ⟨-1, 0, false, 0⟩) 0 ⟨5, 0, false, 0⟩
    pageTable := [(5, 0)]
    freeList := []
    replacer := ⟨2, 1, [(0, ⟨[4], true⟩)], [0], [0], 1, 9⟩
    nextPageId := 6
    disk := fun _ => 0
    ops := [] }

/-- One-frame pool with k = 1: page 3 resident in frame 0, pinned once and
then unpinned, so the frame is evictable and its single recorded access
already reaches k — it is absent from the under-k index `inf_replacer_`. -/
def poolC : Pool :=
  { poolSize := 1
    frames := Function.update (fun _ => ⟨-1, 0, false, 0⟩) 0 ⟨3, 0, false, 0⟩
    pageTable := [(3, 0)]
    freeList := []
    replacer := ⟨1, 1, [(0, ⟨[4], true⟩)], [0], [], 1, 5⟩
    nextPageId := 4
    disk := fun _ => 0
    ops := [] }

end BPM

/-- Concrete replacer state used to witness the eviction-rule theorem:
k = 2, frame 0 evictable with one access at time 3 (under-k), frame 1
evictable with accesses at times 5 and 7 (at-k). -/
def sampleReplacer : LRUK.Replacer :=
  ⟨2, 3, [(0, ⟨[3], true⟩), (1, ⟨[5, 7], true⟩)], [0, 1], [0], 2, 8⟩

/-! # Theorems -/

/-! ## Helper lemmas -/

theorem ite_absorb_nested {α : Sort u} (c : Prop) [Decidable c] (A B C : α) :
    (if c then A else if c then B else C) = if c then A else C := by
  by_cases h : c <;> simp [h]

/-- The recursive call inside `Insert` (source line 190) is dead code: it is
guarded by `bucket->IsFull()` in the branch where that same test on the
unmodified bucket has just failed, so the amount of fuel is irrelevant. -/
theorem insertFuel_fuel_irrelevant (l : Nat) (t : ExtHash.HT) (k v : Int) :
    ExtHash.HT.insertFuel (l + 1) t k v = ExtHash.HT.insertFuel 1 t k v := by
  show ExtHash.HT.insertFuel (l + 1) t k v = ExtHash.HT.insertFuel (0 + 1) t k v
  simp only [ExtHash.HT.insertFuel, ite_absorb_nested]

theorem lookup_storeUpdate_self (s : List (Nat × LRUK.Node)) (fid : Nat)
    (n : LRUK.Node) : (LRUK.storeUpdate s fid n).lookup fid = some n := by
  induction s with
  | nil => simp [LRUK.storeUpdate, List.lookup]
  | cons e rest ih =>
    by_cases h : e.1 = fid
    · simp [LRUK.storeUpdate, h, List.lookup]
    · simp only [LRUK.storeUpdate, if_neg h, List.lookup]
      have : (fid == e.1) = false := by
        simp [beq_iff_eq]; exact fun hh => h hh.symm
      simp [this, ih]

theorem mem_setInsert_self (a : Nat) (l : List Nat) : a ∈ LRUK.setInsert a l := by
  induction l with
  | nil => simp [LRUK.setInsert]
  | cons b rest ih =>
    by_cases h1 : a < b
    · simp [LRUK.setInsert, h1]
    · by_cases h2 : a = b
      · simp [LRUK.setInsert, h1, h2]
      · simp only [LRUK.setInsert, if_neg h1, if_neg h2, List.mem_cons]
        exact Or.inr ih

theorem wfb_currSize (r : LRUK.Replacer) (h : r.wfb = true) :
    r.currSize = r.replacerSet.length := by
  unfold LRUK.Replacer.wfb at h
  simp only [Bool.and_eq_true, beq_iff_eq] at h
  exact h.1.1.1.1

theorem wfb_mem_node (r : LRUK.Replacer) (h : r.wfb = true) {f : Nat}
    (hf : f ∈ r.replacerSet) :
    ∃ n, r.nodeStore.lookup f = some n ∧ n.evictable = true ∧ n.history ≠ [] := by
  unfold LRUK.Replacer.wfb at h
  simp only [Bool.and_eq_true, List.all_eq_true] at h
  have h2 := h.1.1.1.2 f hf
  cases hl : r.nodeStore.lookup f with
  | none => rw [hl] at h2; exact absurd h2 (by simp)
  | some n =>
    rw [hl] at h2
    simp only [Bool.and_eq_true] at h2
    refine ⟨n, rfl, h2.1, ?_⟩
    have := h2.2
    simpa [List.isEmpty_iff] using this

theorem wfb_inf_sub (r : LRUK.Replacer) (h : r.wfb = true) {f : Nat}
    (hf : f ∈ r.infSet) : f ∈ r.replacerSet := by
  unfold LRUK.Replacer.wfb at h
  simp only [Bool.and_eq_true, List.all_eq_true] at h
  have h3 := h.1.1.2 f hf
  simpa [List.contains, List.elem_iff] using h3

theorem wfb_inf_lt (r : LRUK.Replacer) (h : r.wfb = true) {f : Nat} {n : LRUK.Node}
    (hf : f ∈ r.infSet) (hn : r.nodeStore.lookup f = some n) :
    n.history.length < r.k := by
  unfold LRUK.Replacer.wfb at h
  simp only [Bool.and_eq_true, List.all_eq_true] at h
  have h4 := h.1.2 f hf
  rw [hn] at h4
  simpa using h4

theorem wfb_lt_inf (r : LRUK.Replacer) (h : r.wfb = true) {f : Nat} {n : LRUK.Node}
    (hf : f ∈ r.replacerSet) (hn : r.nodeStore.lookup f = some n)
    (hlt : n.history.length < r.k) : f ∈ r.infSet := by
  unfold LRUK.Replacer.wfb at h
  simp only [Bool.and_eq_true, List.all_eq_true] at h
  have h5 := h.2 f hf
  rw [hn] at h5
  simpa [hlt, List.contains, List.elem_iff] using h5

/-! ## Claim theorems -/

/-- C1.  The round-trip property fails on the code: with
`bucket_max_size = 2` and keys hashing to 0, 4 and 8, the third `Insert`
returns `true` (its key is silently dropped when the post-split bucket is
still full), yet the subsequent `GetValue` of that key returns no values
and reports not-found. -/
theorem insert_roundtrip_violation :
    ExtHash.runAProbe = .ok (true, [], false) := rfl

/-- C2.  For every pool state and page id, the guard-returning methods
`FetchPageBasic`, `FetchPageRead`, `FetchPageWrite` and `NewPageGuarded`
build their guard from a null `Page` pointer and leave the pool untouched;
`FetchPageRead` and `FetchPageWrite` hand the null page to a constructor
whose first action dereferences it to take the latch. -/
theorem guard_methods_use_null_page (m : BPM.Pool) (pid : Int) :
    m.fetchPageBasic pid = (⟨true, none, false⟩, m) ∧
    m.newPageGuarded = (⟨true, none, false⟩, m) ∧
    m.fetchPageRead pid = .error "null pointer dereference: page->RLatch()" ∧
    m.fetchPageWrite pid = .error "null pointer dereference: page->WLatch()" :=
  ⟨rfl, rfl, rfl, rfl⟩

/-- C3.  The header page's precondition assertions accept exactly the
complement of the intended ranges: `Init`'s assertion fails for every
`max_depth ≤ HTABLE_HEADER_MAX_DEPTH`, and the directory-index assertion of
`GetDirectoryPageId`/`SetDirectoryPageId` fails for every index in the
valid range `[0, 2^max_depth)`, because each asserts that the depth/index
is strictly greater than its bound instead of below it. -/
theorem header_assertions_inverted :
    (∀ d, d ≤ ExtHash.HTABLE_HEADER_MAX_DEPTH → ¬ ExtHash.headerInitAssertHolds d) ∧
    (∀ md i, i < 2 ^ md → ¬ ExtHash.headerDirIdxAssertHolds md i) ∧
    (∀ d, ExtHash.headerInitAssertHolds d ↔ ExtHash.HTABLE_HEADER_MAX_DEPTH < d) ∧
    (∀ md i, ExtHash.headerDirIdxAssertHolds md i ↔ 2 ^ md < i) := by
  refine ⟨fun d hd => ?_, fun md i hi => ?_, fun d => Iff.rfl, fun md i => ?_⟩
  · exact fun hcon => absurd hd (by exact Nat.not_le.mpr hcon)
  · intro hcon
    unfold ExtHash.headerDirIdxAssertHolds at hcon
    rw [Nat.shiftLeft_eq, Nat.one_mul] at hcon
    omega
  · unfold ExtHash.headerDirIdxAssertHolds
    rw [Nat.shiftLeft_eq, Nat.one_mul]

theorem header_assertions_inverted_witness :
    ¬ ExtHash.headerInitAssertHolds 3 ∧ ¬ ExtHash.headerDirIdxAssertHolds 2 1 :=
  ⟨header_assertions_inverted.1 3 (by decide),
   header_assertions_inverted.2.1 2 1 (by decide)⟩

/-- C4.  The `FetchPage` contract fails on the code at two points.  On
`poolA` (page 7 resident with pin count 1) the fetch returns the resident
frame but leaves the pin count at 1 instead of incrementing it.  On `poolB`
(no free frame, page id 10 not yet persisted since `next_page_id_ = 6`) the
evicted-frame path still issues a disk read for the never-persisted page
(the unconditional read at lines 187-192). -/
theorem fetchPage_contract_violation :
    ((BPM.poolA.fetchPage 7).map fun p => (p.1, (p.2.frames 0).pinCount))
      = .ok (some 0, 1) ∧
    ((BPM.poolB.fetchPage 10).map fun p => (p.1, p.2.ops))
      = .ok (some 0, [BPM.DiskOp.mk false 10]) :=
  ⟨rfl, rfl⟩

/-- C6.  `HashToDirectoryIndex` does not return the top `max_depth` bits:
with `max_depth = 2` and hash 3 the code computes
`3 & (1 << (2 - 1)) = 2`, whereas the specified top-2-bits of the 32-bit
hash 3 are 0. -/
theorem hashToDirectoryIndex_not_top_bits :
    ExtHash.headerHashToDirectoryIndex 2 3 = 2 ∧ ExtHash.specTopBits 2 3 = 0 :=
  ⟨rfl, rfl⟩

/-- C7.  Insert split completion fails on the code: in `runA` the third
insert splits once, the receiving bucket is still full afterwards
(`[(0,100),(4,101)]` with capacity 2, global depth still 1), no recursive
split happens (the recursion at source line 190 is dead code), the new key
is dropped, and the call still returns `true`. -/
theorem insert_split_no_recursion :
    ExtHash.runASplitProbe = .ok (true, 1, [(0, 100), (4, 101)], []) := rfl

/-- C8.  The merge-on-removal rule fails on the code: in `runB` the remove
empties the bucket at directory slot 1 (local depth 1, split image slot 0
has local depth 2, so the claim forbids a merge), yet the code repoints
slot 1 at `bucket_page_ids_[1 % 2] = bucket_page_ids_[1]` (itself) and
decrements slot 1's local depth twice, leaving it at 255 by `uint8_t`
wraparound while returning `true`. -/
theorem remove_merge_rule_violation :
    ExtHash.runBProbe = .ok (true, 2, 2, 255) := rfl

/-- C10.  The `DeletePage` contract fails on the code: on `poolC` (k = 1,
page 3 resident in frame 0, unpinned and evictable, its single recorded
access reaching k so the frame is absent from `inf_replacer_`), the delete
reaches `LRUKReplacer::Remove`, whose
`index = inf_replacer_.find(frame_id); if (*index > 0) ...` dereferences
the `end()` iterator — undefined behaviour instead of the claimed clean
removal returning `true`. -/
theorem deletePage_contract_violation :
    BPM.poolC.deletePage 3 = .error "Remove: dereference of end iterator of inf_replacer_" := rfl

/-- C9.  UnpinPage contract: `UnpinPage` returns false when the page is
not resident or its pin count is already zero; otherwise it decrements the
pin count, marks the frame evictable in the replacer exactly when the pin
count reaches zero, and sets the dirty flag when `is_dirty` is true while
never clearing it.  Hypotheses: the resident frame is known to the replacer
(every frame entering the page table had `RecordAccess` called on it) and
the replacer bookkeeping is well formed. -/
theorem unpinPage_contract (m : BPM.Pool) (pid : Int) (d : Bool)
    (hknown : ((m.pageTable.lookup pid).map
        (fun f => (m.replacer.nodeStore.lookup f).isSome)).getD true = true)
    (hwf : m.replacer.wfb = true) :
    ∃ res m', m.unpinPage pid d = .ok (res, m') ∧
      (m.pageTable.lookup pid = none → res = false ∧ m' = m) ∧
      (∀ f, m.pageTable.lookup pid = some f →
        ((m.frames f).pinCount ≤ 0 → res = false ∧ m' = m) ∧
        (0 < (m.frames f).pinCount →
          res = true ∧
          (m'.frames f).pinCount = (m.frames f).pinCount - 1 ∧
          (m'.frames f).isDirty = ((m.frames f).isDirty || d) ∧
          m'.pageTable = m.pageTable ∧
          ((m.frames f).pinCount = 1 →
            f ∈ m'.replacer.replacerSet ∧
            ∃ n, m'.replacer.nodeStore.lookup f = some n ∧ n.evictable = true) ∧
          ((m.frames f).pinCount ≠ 1 → m'.replacer = m.replacer))) := by
  cases hpt : m.pageTable.lookup pid with
  | none =>
    refine ⟨false, m, ?_, fun _ => ⟨rfl, rfl⟩, fun f hf => nomatch hf⟩
    unfold BPM.Pool.unpinPage
    rw [hpt]
  | some f =>
    rw [hpt] at hknown
    simp only [Option.map_some', Option.getD_some, Option.isSome_iff_exists] at hknown
    obtain ⟨n0, hn0⟩ := hknown
    by_cases hp : (m.frames f).pinCount ≤ 0
    · refine ⟨false, m, ?_, ?_, ?_⟩
      · unfold BPM.Pool.unpinPage
        rw [hpt]
        simp only [if_pos hp]
      · exact fun hc => nomatch hc
      · intro g hg
        injection hg with hg; subst hg
        exact ⟨fun _ => ⟨rfl, rfl⟩, fun hgt => absurd hgt (by omega)⟩
    · -- pin count strictly positive: run the program and split on its result
      cases hE : m.unpinPage pid d with
      | error e =>
        exfalso
        unfold BPM.Pool.unpinPage at hE
        rw [hpt] at hE
        by_cases h1 : (m.frames f).pinCount = 1
        · by_cases h2 : f ∈ m.replacer.replacerSet
          · simp [if_neg hp, Function.update_same, h1, LRUK.Replacer.setEvictable,
              if_pos h2, bind, Except.bind] at hE
          · by_cases h3 : n0.history.length < m.replacer.k
            · simp [if_neg hp, Function.update_same, h1, LRUK.Replacer.setEvictable,
                if_neg h2, hn0, if_pos h3, bind, Except.bind] at hE
            · simp [if_neg hp, Function.update_same, h1, LRUK.Replacer.setEvictable,
                if_neg h2, hn0, if_neg h3, bind, Except.bind] at hE
        · have hc0 : ¬ ((m.frames f).pinCount - 1 = 0) := by omega
          simp [if_neg hp, Function.update_same, if_neg hc0, bind, Except.bind] at hE
      | ok p =>
        obtain ⟨res, M⟩ := p
        unfold BPM.Pool.unpinPage at hE
        rw [hpt] at hE
        refine ⟨res, M, rfl, ?_, ?_⟩
        · exact fun hc => nomatch hc
        intro g hg
        injection hg with hg; subst hg
        refine ⟨fun hle => absurd hle hp, fun _ => ?_⟩
        by_cases h1 : (m.frames f).pinCount = 1
        · by_cases h2 : f ∈ m.replacer.replacerSet
          · simp [if_neg hp, Function.update_same, h1, LRUK.Replacer.setEvictable,
              if_pos h2, bind, Except.bind] at hE
            obtain ⟨hres, hM⟩ := hE
            subst hres
            obtain ⟨n, hn, hev, -⟩ := wfb_mem_node m.replacer hwf h2
            cases d with
            | false =>
              subst hM
              exact ⟨rfl, by simp [Function.update_same, h1],
                by simp [Function.update_same], rfl,
                fun _ => ⟨h2, n, hn, hev⟩, fun hne => absurd h1 hne⟩
            | true =>
              subst hM
              exact ⟨rfl, by simp [Function.update_same, h1],
                by simp [Function.update_same], rfl,
                fun _ => ⟨h2, n, hn, hev⟩, fun hne => absurd h1 hne⟩
          · by_cases h3 : n0.history.length < m.replacer.k
            · simp [if_neg hp, Function.update_same, h1, LRUK.Replacer.setEvictable,
                if_neg h2, hn0, if_pos h3, bind, Except.bind] at hE
              obtain ⟨hres, hM⟩ := hE
              subst hres
              cases d with
              | false =>
                subst hM
                exact ⟨rfl, by simp [Function.update_same, h1],
                  by simp [Function.update_same], rfl,
                  fun _ => ⟨mem_setInsert_self _ _, ⟨n0.history, true⟩,
                    lookup_storeUpdate_self _ _ _, rfl⟩, fun hne => absurd h1 hne⟩
              | true =>
                subst hM
                exact ⟨rfl, by simp [Function.update_same, h1],
                  by simp [Function.update_same], rfl,
                  fun _ => ⟨mem_setInsert_self _ _, ⟨n0.history, true⟩,
                    lookup_storeUpdate_self _ _ _, rfl⟩, fun hne => absurd h1 hne⟩
            · simp [if_neg hp, Function.update_same, h1, LRUK.Replacer.setEvictable,
                if_neg h2, hn0, if_neg h3, bind, Except.bind] at hE
              obtain ⟨hres, hM⟩ := hE
              subst hres
              cases d with
              | false =>
                subst hM
                exact ⟨rfl, by simp [Function.update_same, h1],
                  by simp [Function.update_same], rfl,
                  fun _ => ⟨mem_setInsert_self _ _, ⟨n0.history, true⟩,
                    lookup_storeUpdate_self _ _ _, rfl⟩, fun hne => absurd h1 hne⟩
              | true =>
                subst hM
                exact ⟨rfl, by simp [Function.update_same, h1],
                  by simp [Function.update_same], rfl,
                  fun _ => ⟨mem_setInsert_self _ _, ⟨n0.history, true⟩,
                    lookup_storeUpdate_self _ _ _, rfl⟩, fun hne => absurd h1 hne⟩
        · have hc0 : ¬ ((m.frames f).pinCount - 1 = 0) := by omega
          simp [if_neg hp, Function.update_same, if_neg hc0, bind, Except.bind] at hE
          obtain ⟨hres, hM⟩ := hE
          subst hres
          cases d with
          | false =>
            subst hM
            exact ⟨rfl, by simp [Function.update_same],
              by simp [Function.update_same], rfl,
              fun h1c => absurd h1c h1, fun _ => rfl⟩
          | true =>
            subst hM
            exact ⟨rfl, by simp [Function.update_same],
              by simp [Function.update_same], rfl,
              fun h1c => absurd h1c h1, fun _ => rfl⟩

/-- Witness for `unpinPage_contract` at the concrete pool `poolA`, page 7,
`is_dirty = true`. -/
theorem unpinPage_contract_witness :
    ∃ res m', BPM.poolA.unpinPage 7 true = .ok (res, m') ∧
      (BPM.poolA.pageTable.lookup 7 = none → res = false ∧ m' = BPM.poolA) ∧
      (∀ f, BPM.poolA.pageTable.lookup 7 = some f →
        ((BPM.poolA.frames f).pinCount ≤ 0 → res = false ∧ m' = BPM.poolA) ∧
        (0 < (BPM.poolA.frames f).pinCount →
          res = true ∧
          (m'.frames f).pinCount = (BPM.poolA.frames f).pinCount - 1 ∧
          (m'.frames f).isDirty = ((BPM.poolA.frames f).isDirty || true) ∧
          m'.pageTable = BPM.poolA.pageTable ∧
          ((BPM.poolA.frames f).pinCount = 1 →
            f ∈ m'.replacer.replacerSet ∧
            ∃ n, m'.replacer.nodeStore.lookup f = some n ∧ n.evictable = true) ∧
          ((BPM.poolA.frames f).pinCount ≠ 1 → m'.replacer = BPM.poolA.replacer))) :=
  unpinPage_contract BPM.poolA 7 true (by decide) (by decide)

/-- Correctness of the linear victim scan in `Evict`: the fold returns the
running minimum of `GetLatestAccessTime` under strict improvement, so the
final candidate (when one exists) attains the minimum over the scanned
frames. -/
theorem scan_min_spec (store : List (Nat × LRUK.Node)) :
    ∀ (fids : List Nat) (t0 : Nat) (b0 : Option (Nat × LRUK.Node)),
    (∀ f ∈ fids, (store.lookup f).isSome) →
    ∃ t b, List.foldlM (LRUK.scanStep store) (t0, b0) fids = Except.ok (t, b) ∧
      t ≤ t0 ∧
      (∀ f n, f ∈ fids → store.lookup f = some n → t ≤ n.getLatestAccessTime) ∧
      ((b = b0 ∧ t = t0) ∨
        ∃ f n, f ∈ fids ∧ store.lookup f = some n ∧ b = some (f, n) ∧
          n.getLatestAccessTime = t) := by
  intro fids
  induction fids with
  | nil =>
    intro t0 b0 _
    refine ⟨t0, b0, rfl, le_refl _, ?_, Or.inl ⟨rfl, rfl⟩⟩
    intro f n hf
    exact absurd hf (List.not_mem_nil f)
  | cons f fs ih =>
    intro t0 b0 hsome
    have hf : (store.lookup f).isSome := hsome f (List.mem_cons_self f fs)
    obtain ⟨n, hn⟩ := Option.isSome_iff_exists.mp hf
    have hsome' : ∀ g ∈ fs, (store.lookup g).isSome :=
      fun g hg => hsome g (List.mem_cons_of_mem f hg)
    by_cases hlt : n.getLatestAccessTime < t0
    · obtain ⟨t, b, hfold, hle, hall, hdisj⟩ := ih (n.getLatestAccessTime) (some (f, n)) hsome'
      refine ⟨t, b, ?_, le_trans hle (le_of_lt hlt), ?_, ?_⟩
      · rw [List.foldlM_cons]
        simp only [LRUK.scanStep, hn, if_pos hlt, bind, Except.bind]
        exact hfold
      · intro g ng hg hng
        rcases List.mem_cons.mp hg with hgf | hgfs
        · subst hgf
          rw [hn] at hng
          injection hng with hng
          subst hng
          exact hle
        · exact hall g ng hgfs hng
      · rcases hdisj with ⟨hb, ht⟩ | ⟨g, ng, hg, hng, hb, ht⟩
        · exact Or.inr ⟨f, n, List.mem_cons_self f fs, hn, hb, ht.symm ▸ rfl⟩
        · exact Or.inr ⟨g, ng, List.mem_cons_of_mem f hg, hng, hb, ht⟩
    · obtain ⟨t, b, hfold, hle, hall, hdisj⟩ := ih t0 b0 hsome'
      refine ⟨t, b, ?_, hle, ?_, ?_⟩
      · rw [List.foldlM_cons]
        simp only [LRUK.scanStep, hn, if_neg hlt, bind, Except.bind]
        exact hfold
      · intro g ng hg hng
        rcases List.mem_cons.mp hg with hgf | hgfs
        · subst hgf
          rw [hn] at hng
          injection hng with hng
          subst hng
          exact le_trans hle (not_lt.mp hlt)
        · exact hall g ng hgfs hng
      · rcases hdisj with ⟨hb, ht⟩ | ⟨g, ng, hg, hng, hb, ht⟩
        · exact Or.inl ⟨hb, ht⟩
        · exact Or.inr ⟨g, ng, List.mem_cons_of_mem f hg, hng, hb, ht⟩

theorem lookup_mem {l : List (Nat × LRUK.Node)} {k : Nat} {v : LRUK.Node}
    (h : l.lookup k = some v) : (k, v) ∈ l := by
  induction l with
  | nil => simp [List.lookup] at h
  | cons e rest ih =>
    obtain ⟨k1, v1⟩ := e
    by_cases hk : k = k1
    · subst hk
      simp [List.lookup] at h
      simp [h]
    · have hbeq : (k == k1) = false := beq_false_of_ne hk
      rw [List.lookup, hbeq] at h
      exact List.mem_cons_of_mem _ (ih h)

/-- C5.  LRU-K eviction rule: whenever at least one frame is evictable
(`replacer_` nonempty), `Evict` succeeds and returns an evictable frame of
maximal K-distance; among under-k (infinite-distance) frames the victim has
the oldest earliest access, and when the victim has k accesses there is no
under-k evictable frame and its k-th most recent access is the oldest among
all evictable frames.  When no frame is evictable, `Evict` fails (returns
`none` with the state unchanged).  Hypotheses: the replacer bookkeeping is
well formed and all recorded timestamps are below the `SIZE_MAX` sentinel
the scan starts from. -/
theorem lruk_evict_rule (r : LRUK.Replacer) (now : Nat)
    (hwf : r.wfb = true)
    (hts : ∀ e ∈ r.nodeStore, ∀ t ∈ e.2.history, t < LRUK.UINT64_MAX) :
    (r.replacerSet = [] → r.evict = .ok (none, r)) ∧
    (r.replacerSet ≠ [] → ∃ f n r',
      r.evict = .ok (some f, r') ∧
      f ∈ r.replacerSet ∧
      r.nodeStore.lookup f = some n ∧
      (∀ g ng, g ∈ r.replacerSet → r.nodeStore.lookup g = some ng →
        LRUK.kdistance r.k now ng ≤ LRUK.kdistance r.k now n) ∧
      (n.history.length < r.k →
        ∀ g ng, g ∈ r.replacerSet → r.nodeStore.lookup g = some ng →
          ng.history.length < r.k →
          n.getLatestAccessTime ≤ ng.getLatestAccessTime) ∧
      (¬ n.history.length < r.k →
        (∀ g ng, g ∈ r.replacerSet → r.nodeStore.lookup g = some ng →
          ¬ ng.history.length < r.k) ∧
        (∀ g ng, g ∈ r.replacerSet → r.nodeStore.lookup g = some ng →
          n.getLatestAccessTime ≤ ng.getLatestAccessTime))) := by
  constructor
  · intro hempty
    have hc : r.currSize = 0 := by rw [wfb_currSize r hwf, hempty]; rfl
    unfold LRUK.Replacer.evict
    rw [if_pos hc]
  · intro hne
    have hcs : ¬ r.currSize = 0 := by
      rw [wfb_currSize r hwf]
      intro hlen
      exact hne (List.length_eq_zero.mp hlen)
    -- a frame whose head timestamp beats the sentinel, for either scan list
    have hfront_lt : ∀ g ng, g ∈ r.replacerSet → r.nodeStore.lookup g = some ng →
        ng.getLatestAccessTime < LRUK.UINT64_MAX := by
      intro g ng hg hng
      obtain ⟨n', hn', -, hhist⟩ := wfb_mem_node r hwf hg
      rw [hng] at hn'
      injection hn' with hn'
      subst hn'
      obtain ⟨h0, t0, hcons⟩ := List.exists_cons_of_ne_nil hhist
      have : ng.getLatestAccessTime ∈ ng.history := by
        simp [LRUK.Node.getLatestAccessTime, hcons]
      exact hts (g, ng) (lookup_mem hng) _ this
    by_cases hinf0 : r.infSet = []
    · -- no under-k evictable frame: the scan runs over replacer_
      have hsome : ∀ g ∈ r.replacerSet, (r.nodeStore.lookup g).isSome := by
        intro g hg
        obtain ⟨n', hn', -, -⟩ := wfb_mem_node r hwf hg
        simp [hn']
      obtain ⟨t, b, hfold, hle, hall, hdisj⟩ :=
        scan_min_spec r.nodeStore r.replacerSet LRUK.UINT64_MAX none hsome
      obtain ⟨f0, hf0⟩ := List.exists_mem_of_ne_nil r.replacerSet hne
      obtain ⟨n0, hn0, -, -⟩ := wfb_mem_node r hwf hf0
      have hb : ∃ f n, f ∈ r.replacerSet ∧ r.nodeStore.lookup f = some n ∧
          b = some (f, n) ∧ n.getLatestAccessTime = t := by
        rcases hdisj with ⟨hb0, ht0⟩ | h
        · exfalso
          have h1 : t ≤ n0.getLatestAccessTime := hall f0 n0 hf0 hn0
          have h2 : n0.getLatestAccessTime < LRUK.UINT64_MAX := hfront_lt f0 n0 hf0 hn0
          omega
        · exact h
      obtain ⟨f, n, hfmem, hn, hb, hfront⟩ := hb
      have hnotlt : ¬ n.history.length < r.k := by
        intro hlt
        have := wfb_lt_inf r hwf hfmem hn hlt
        rw [hinf0] at this
        exact absurd this (List.not_mem_nil f)
      have hatk : ∀ g ng, g ∈ r.replacerSet → r.nodeStore.lookup g = some ng →
          ¬ ng.history.length < r.k := by
        intro g ng hg hng hlt
        have := wfb_lt_inf r hwf hg hng hlt
        rw [hinf0] at this
        exact absurd this (List.not_mem_nil g)
      cases hE : r.evict with
      | error e =>
        exfalso
        unfold LRUK.Replacer.evict at hE
        rw [if_neg hcs] at hE
        simp only [hinf0, List.length_nil, gt_iff_lt, lt_self_iff_false, if_false,
          hfold, bind, Except.bind, hb, if_neg hnotlt, if_pos hfmem] at hE
        exact Except.noConfusion hE
      | ok p =>
        obtain ⟨vict, R⟩ := p
        unfold LRUK.Replacer.evict at hE
        rw [if_neg hcs] at hE
        simp only [hinf0, List.length_nil, gt_iff_lt, lt_self_iff_false, if_false,
          hfold, bind, Except.bind, hb, if_neg hnotlt, if_pos hfmem,
          Except.ok.injEq, Prod.mk.injEq] at hE
        obtain ⟨hv, hR⟩ := hE
        refine ⟨f, n, R, ?_, hfmem, hn, ?_, ?_, ?_⟩
        · rw [← hv]
        · intro g ng hg hng
          have hgk := hatk g ng hg hng
          have hfg : n.getLatestAccessTime ≤ ng.getLatestAccessTime := by
            rw [hfront]
            exact hall g ng hg hng
          simp only [LRUK.kdistance, if_neg hnotlt, if_neg hgk]
          exact_mod_cast Nat.sub_le_sub_left hfg now
        · intro hlt
          exact absurd hlt hnotlt
        · intro _
          refine ⟨hatk, ?_⟩
          intro g ng hg hng
          rw [hfront]
          exact hall g ng hg hng
    · -- some under-k evictable frame exists: the scan runs over inf_replacer_
      have hlen : r.infSet.length > 0 := by
        cases hI : r.infSet with
        | nil => exact absurd hI hinf0
        | cons a l => simp [hI]
      have hsome : ∀ g ∈ r.infSet, (r.nodeStore.lookup g).isSome := by
        intro g hg
        obtain ⟨n', hn', -, -⟩ := wfb_mem_node r hwf (wfb_inf_sub r hwf hg)
        simp [hn']
      obtain ⟨t, b, hfold, hle, hall, hdisj⟩ :=
        scan_min_spec r.nodeStore r.infSet LRUK.UINT64_MAX none hsome
      obtain ⟨f0, hf0⟩ := List.exists_mem_of_ne_nil r.infSet hinf0
      obtain ⟨n0, hn0, -, -⟩ := wfb_mem_node r hwf (wfb_inf_sub r hwf hf0)
      have hb : ∃ f n, f ∈ r.infSet ∧ r.nodeStore.lookup f = some n ∧
          b = some (f, n) ∧ n.getLatestAccessTime = t := by
        rcases hdisj with ⟨hb0, ht0⟩ | h
        · exfalso
          have h1 : t ≤ n0.getLatestAccessTime := hall f0 n0 hf0 hn0
          have h2 : n0.getLatestAccessTime < LRUK.UINT64_MAX :=
            hfront_lt f0 n0 (wfb_inf_sub r hwf hf0) hn0
          omega
        · exact h
      obtain ⟨f, n, hfinf, hn, hb, hfront⟩ := hb
      have hfmem : f ∈ r.replacerSet := wfb_inf_sub r hwf hfinf
      have hlt : n.history.length < r.k := wfb_inf_lt r hwf hfinf hn
      cases hE : r.evict with
      | error e =>
        exfalso
        unfold LRUK.Replacer.evict at hE
        rw [if_neg hcs] at hE
        simp only [gt_iff_lt, if_pos hlen, hfold, bind, Except.bind, hb,
          if_pos hlt, if_pos hfinf, if_pos hfmem] at hE
        exact Except.noConfusion hE
      | ok p =>
        obtain ⟨vict, R⟩ := p
        unfold LRUK.Replacer.evict at hE
        rw [if_neg hcs] at hE
        simp only [gt_iff_lt, if_pos hlen, hfold, bind, Except.bind, hb,
          if_pos hlt, if_pos hfinf, if_pos hfmem,
          Except.ok.injEq, Prod.mk.injEq] at hE
        obtain ⟨hv, hR⟩ := hE
        refine ⟨f, n, R, ?_, hfmem, hn, ?_, ?_, ?_⟩
        · rw [← hv]
        · intro g ng hg hng
          simp only [LRUK.kdistance, if_pos hlt]
          exact le_top
        · intro _
          intro g ng hg hng hgk
          have hginf : g ∈ r.infSet := wfb_lt_inf r hwf hg hng hgk
          rw [hfront]
          exact hall g ng hginf hng
        · intro hnl
          exact absurd hlt hnl

/-- Witness for `lruk_evict_rule` at `sampleReplacer`, `now = 9`. -/
theorem lruk_evict_rule_witness :
    (sampleReplacer.replacerSet = [] → sampleReplacer.evict = .ok (none, sampleReplacer)) ∧
    (sampleReplacer.replacerSet ≠ [] → ∃ f n r',
      sampleReplacer.evict = .ok (some f, r') ∧
      f ∈ sampleReplacer.replacerSet ∧
      sampleReplacer.nodeStore.lookup f = some n ∧
      (∀ g ng, g ∈ sampleReplacer.replacerSet →
        sampleReplacer.nodeStore.lookup g = some ng →
        LRUK.kdistance sampleReplacer.k 9 ng ≤ LRUK.kdistance sampleReplacer.k 9 n) ∧
      (n.history.length < sampleReplacer.k →
        ∀ g ng, g ∈ sampleReplacer.replacerSet →
          sampleReplacer.nodeStore.lookup g = some ng →
          ng.history.length < sampleReplacer.k →
          n.getLatestAccessTime ≤ ng.getLatestAccessTime) ∧
      (¬ n.history.length < sampleReplacer.k →
        (∀ g ng, g ∈ sampleReplacer.replacerSet →
          sampleReplacer.nodeStore.lookup g = some ng →
          ¬ ng.history.length < sampleReplacer.k) ∧
        (∀ g ng, g ∈ sampleReplacer.replacerSet →
          sampleReplacer.nodeStore.lookup g = some ng →
          n.getLatestAccessTime ≤ ng.getLatestAccessTime))) :=
  lruk_evict_rule sampleReplacer 9 (by decide) (by decide)
